import Mathlib

/-!
Shallow embedding of the Pet-Calendar serverless handlers
(`netlify/functions/events.js`, `netlify/functions/getPetNames.js`).

Modelling conventions:
* A JavaScript `Date` is its timestamp in whole minutes (an `Int`); the
  source only ever works at minute granularity (`HH:MM` strings,
  integer `duration` multiplied by 60000 ms).  An *invalid* date
  (`new Date(NaN)`) is `none` in `Option Int`.
* The handlers construct dates with `new Date(year, month-1, day, hh, mm)`
  (local-time constructor) and serialize with `toISOString`; we model a
  single fixed UTC-offset-zero timezone discipline, so a civil day `d`
  starts at minute `d * 1440` and `toISOString` is the identity on the
  minute timestamp.
* JavaScript strings that the code splits on single-character separators
  are modelled as `List Char` processed by a structural splitter, so all
  definitions evaluate inside the kernel.
* `Number(s)` is modelled on the fragment of inputs the date parser can
  see: the empty string is `0`, an optional-sign decimal numeral is its
  value, anything else is `NaN` (`none`).
-/

/-- Numeric value of a list of decimal digit characters (most significant first). -/
def digitsVal (l : List Char) : Nat :=
  l.foldl (fun acc c => acc * 10 + (c.toNat - 48)) 0

/-- Model of JavaScript `Number(s)` on the strings reaching the date parser:
`""` is `0`, optional-sign decimal numerals evaluate, everything else is `NaN`
(represented by `none`). -/
def jsNumber (l : List Char) : Option Int :=
  match l with
  | [] => some 0
  | '-' :: rest =>
      if rest ≠ [] ∧ rest.all (fun c => c.isDigit) then some (-(digitsVal rest : Int)) else none
  | _ =>
      if l.all (fun c => c.isDigit) then some ((digitsVal l : Int)) else none

/-- Model of JavaScript `String.prototype.split` with a one-character separator. -/
def splitOnChar (sep : Char) : List Char → List (List Char)
  | [] => [[]]
  | c :: cs =>
      if c = sep then [] :: splitOnChar sep cs
      else
        match splitOnChar sep cs with
        | [] => [[c]]
        | g :: gs => (c :: g) :: gs

/-- Days from the epoch 1970-01-01 of the civil date `(y, m, d)` with
`m ∈ [1, 12]`; `d` may be out of range, in which case it rolls over exactly as
JavaScript's `Date` constructor does (the dependence on `d` is linear). -/
def daysFromCivil (y m d : Int) : Int :=
  let y1 := if m ≤ 2 then y - 1 else y
  let era := y1 / 400
  let yoe := y1 - era * 400
  let mp := if m > 2 then m - 3 else m + 9
  let doy := (153 * mp + 2) / 5 + d - 1
  let doe := yoe * 365 + yoe / 4 - yoe / 100 + doy
  era * 146097 + doe - 719468

/-- Model of `new Date(year, month0, day, hours, minutes)` (month0 is
0-indexed and is normalized with rollover, exactly as in JavaScript);
the result is the timestamp in minutes. -/
def jsMakeDate (year month0 day hours minutes : Int) : Int :=
  daysFromCivil (year + month0 / 12) (month0 % 12 + 1) day * 1440 + hours * 60 + minutes

/-- The `[hours, minutes] = timeString.split(':').map(Number)` part of
`parseDateTime`, combined into minutes after midnight; `none` when either
component is `NaN` (which makes the constructed `Date` invalid). -/
def parseTimeMins (timeString : String) : Option Int :=
  let tparts := (splitOnChar ':' timeString.toList).map jsNumber
  match tparts.getD 0 none, tparts.getD 1 none with
  | some hh, some mi => some (hh * 60 + mi)
  | _, _ => none

/-- Model of the source's `parseDateTime(dateString, timeString)`: take the
part of `dateString` before any `'T'`, split it on `'-'`, convert the pieces
with `Number`, return an invalid date (`none`) if year, month or day is `NaN`,
otherwise build `new Date(year, month - 1, day, hours, minutes)`.  A `NaN`
hour or minute also yields an invalid date, because the source feeds it to the
`Date` constructor unchecked. -/
def parseDateTime (dateString : String) (timeString : String := "00:00") : Option Int :=
  let cleanDateString := (splitOnChar 'T' dateString.toList).headD []
  let parts := (splitOnChar '-' cleanDateString).map jsNumber
  match parts.getD 0 none, parts.getD 1 none, parts.getD 2 none with
  | some y, some m, some d =>
      match parseTimeMins timeString with
      | some t => some (jsMakeDate y (m - 1) d 0 0 + t)
      | none => none
  | _, _, _ => none

/-- Model of the source's `formatDateToYYYYMMDD`: in the embedding a
`YYYY-MM-DD` string is represented by its civil day number, i.e. the
timestamp's day component (floor division because the constructor builds
dates from local civil components). -/
def formatDateToYYYYMMDD (t : Int) : Int := t / 1440

/-- Model of `Date.prototype.getDay` (0 = Sunday .. 6 = Saturday); day 0 of
the epoch, 1970-01-01, was a Thursday. -/
def jsGetDay (t : Int) : Int := (t / 1440 + 4) % 7

/-- Model of the JavaScript defaulting idiom `v || null` on an optional
string field: a missing field or an empty string becomes `null`. -/
def orNullStr (v : Option String) : Option String :=
  match v with
  | none => none
  | some s => if s = "" then none else some s

/-- Model of `v || false` on an optional boolean field. -/
def orFalse (v : Option Bool) : Bool :=
  match v with
  | none => false
  | some b => b

/-- One row of the `events` table.  `dtstart`/`dtend` are stored instants in
minutes; `recurring_days` keeps the content of the JSON-serialized weekday
selection object as an association list from weekday key to its boolean. -/
structure EventRow where
  uid : String
  summary : String
  type : String
  dtstart : Int
  dtend : Int
  description : Option String
  is_recurring : Bool
  recurring_days : Option (List (Int × Bool))
  series_id : Option String
  recur_until : Option String
  series_start_date : Option String
deriving DecidableEq, Repr

/-- The JSON body of a `PUT ?seriesId=` request, as destructured by the
handler: `{ summary, time, duration, recurring_days, recur_until,
series_start_date, type, description }`. -/
structure SeriesBody where
  summary : String
  time : String
  duration : Int
  recurring_days : List (Int × Bool)
  recur_until : String
  series_start_date : String
  type : String
  description : Option String
deriving Repr

/-- Model of `Object.keys(recurring_days).filter(day => recurring_days[day]).map(Number)`:
the keys of the weekday-selection object whose value is truthy. -/
def selectedDaysRaw (rd : List (Int × Bool)) : List Int :=
  (rd.filter (fun p => p.2)).map (fun p => p.1)

/-- The handler's `selectedDays` after its defaulting step: an empty
selection is replaced by all seven weekdays. -/
def jsSelectedDays (rd : List (Int × Bool)) : List Int :=
  let s := selectedDaysRaw rd
  if s = [] then [0, 1, 2, 3, 4, 5, 6] else s

/-- The row the expansion loop inserts for iteration day `cur` (a timestamp
in minutes), or `none` when `eventStart` is an invalid date (in which case
`eventStart.toISOString()` throws in the source).  `eventStart` is
`parseDateTime(formatDateToYYYYMMDD(currentDate), time)` and `eventEnd` adds
`finalDuration` minutes, where `finalDuration` is 30 for the
`"meet-and-greet"` event type and the caller-supplied `duration` otherwise. -/
def mkSeriesRow (sid : String) (body : SeriesBody) (uid : String) (cur : Int) :
    Option EventRow :=
  match parseTimeMins body.time with
  | none => none
  | some tm =>
      let eventStart := formatDateToYYYYMMDD cur * 1440 + tm
      let finalDuration := if body.type = "meet-and-greet" then 30 else body.duration
      some
        { uid := "manual-" ++ uid
          summary := body.summary
          type := body.type
          dtstart := eventStart
          dtend := eventStart + finalDuration
          description := orNullStr body.description
          is_recurring := true
          recurring_days := some body.recurring_days
          series_id := some sid
          recur_until := some body.recur_until
          series_start_date := some body.series_start_date }

/-- The expansion loop `while (currentDate <= untilDate)`: starting from the
minute timestamp `cur`, walk forward one civil day (1440 minutes) at a time
up to and including `untilM`, and on each day whose weekday is in `sel`
produce the row of `mkSeriesRow` (with the next fresh identifier from
`uids`).  Termination is by the day count of the remaining range, so the
walk is finite for every input. -/
def expandStream (sid : String) (body : SeriesBody) (sel : List Int)
    (uids : Nat → String) (n : Nat) (cur untilM : Int) : List (Option EventRow) :=
  if _h : cur ≤ untilM then
    (if sel.contains (jsGetDay cur) then [mkSeriesRow sid body (uids n) cur] else []) ++
      expandStream sid body sel uids
        (if sel.contains (jsGetDay cur) then n + 1 else n) (cur + 1440) untilM
  else []
termination_by (untilM + 1440 - cur).toNat
decreasing_by omega

/-- The whole expansion as run by the handler: `currentDate` is
`parseDateTime(series_start_date)` (midnight), `untilDate` is
`parseDateTime(recur_until, '23:59')` (normalized past midnight), and an
invalid bound makes the `while` comparison false at once, so the stream is
empty. -/
def streamOf (sid : String) (body : SeriesBody) (uids : Nat → String) :
    List (Option EventRow) :=
  match parseDateTime body.series_start_date, parseDateTime body.recur_until "23:59" with
  | some cur, some untilM =>
      expandStream sid body (jsSelectedDays body.recurring_days) uids 0 cur untilM
  | _, _ => []

/-- The rows a fully successful expansion inserts. -/
def expandedRows (sid : String) (body : SeriesBody) (uids : Nat → String) :
    List EventRow :=
  (streamOf sid body uids).filterMap id

/-- A pooled database client: the committed content of the `events` table,
plus the pending view of an open transaction (`none` when no transaction is
open).  Mutating statements run against the pending view while a transaction
is open and only `COMMIT` publishes it, which is what makes the handler's
`BEGIN`/`COMMIT`/`ROLLBACK` bracket atomic. -/
structure PgClient where
  committed : List EventRow
  txn : Option (List EventRow)
deriving DecidableEq, Repr

/-- `client.query('BEGIN')`. -/
def pgBegin (c : PgClient) : PgClient := { c with txn := some c.committed }

/-- A mutating statement, applied to the open transaction's view if any,
else directly to the committed table (autocommit). -/
def pgRun (f : List EventRow → List EventRow) (c : PgClient) : PgClient :=
  match c.txn with
  | some s => { c with txn := some (f s) }
  | none => { committed := f c.committed, txn := none }

/-- `client.query('COMMIT')`. -/
def pgCommit (c : PgClient) : PgClient :=
  match c.txn with
  | some s => { committed := s, txn := none }
  | none => c

/-- `client.query('ROLLBACK')`. -/
def pgRollback (c : PgClient) : PgClient := { c with txn := none }

/-- The `INSERT` half of the expansion loop, run over the stream of rows the
loop builds.  `sched i = true` simulates a store error thrown by the `i`-th
`INSERT`; a `none` element is an iteration whose `eventStart.toISOString()`
throws before the `INSERT` is issued.  Returns the client together with
`true` on normal completion and `false` when an exception aborts the loop. -/
def insertLoop (sched : Nat → Bool) : List (Option EventRow) → Nat → PgClient → PgClient × Bool
  | [], _, c => (c, true)
  | none :: _, _, c => (c, false)
  | some r :: rest, i, c =>
      if sched i then (c, false)
      else insertLoop sched rest (i + 1) (pgRun (fun s => s ++ [r]) c)

/-- The `PUT ?seriesId=` handler body (`replaceSeries`): `BEGIN`, delete every
row of the series, regenerate the instances with the expansion loop, `COMMIT`;
on any thrown error, `ROLLBACK` and surface a 500.  `delFail` simulates a
store error on the `DELETE`; `sched` simulates store errors on the `INSERT`s;
`uids` supplies the generated `crypto.randomUUID()` values.  Returns the
client and the HTTP status code. -/
def putSeries (sid : String) (body : SeriesBody) (uids : Nat → String)
    (delFail : Bool) (sched : Nat → Bool) (c : PgClient) : PgClient × Nat :=
  let c1 := pgBegin c
  if delFail then (pgRollback c1, 500)
  else
    let c2 := pgRun (fun s => s.filter (fun r => ¬(r.series_id = some sid))) c1
    let p := insertLoop sched (streamOf sid body uids) 0 c2
    if p.2 then (pgCommit p.1, 200) else (pgRollback p.1, 500)

/-- The JSON body of a `PUT ?uid=` request (single-event update); fields the
caller may omit are `Option`-typed. -/
structure UpdateBody where
  summary : String
  type : String
  dtstart : Int
  dtend : Int
  description : Option String
  is_recurring : Option Bool
  recurring_days : Option (List (Int × Bool))
  series_id : Option String
  recur_until : Option String
  series_start_date : Option String
deriving DecidableEq, Repr

/-- The row produced by the `UPDATE ... WHERE uid = $11` `SET` list for a
matched row `r`: every column except `uid` is overwritten from the request
body, with the source's `|| null` / `|| false` defaulting. -/
def updatedRow (body : UpdateBody) (r : EventRow) : EventRow :=
  { uid := r.uid
    summary := body.summary
    type := body.type
    dtstart := body.dtstart
    dtend := body.dtend
    description := orNullStr body.description
    is_recurring := orFalse body.is_recurring
    recurring_days := body.recurring_days
    series_id := orNullStr body.series_id
    recur_until := orNullStr body.recur_until
    series_start_date := orNullStr body.series_start_date }

/-- The `PUT ?uid=` handler (`updateSingle`): overwrite the columns of every
row whose `uid` matches (at most one, since `uid` is unique) and leave every
other row in place. -/
def updateSingle (u : String) (body : UpdateBody) (events : List EventRow) :
    List EventRow :=
  events.map (fun r => if r.uid = u then updatedRow body r else r)

/-- The full application state visible to a handler: the `events` table plus
whatever other state the process holds, to make frame conditions statable. -/
structure AppState (α : Type) where
  events : List EventRow
  other : α
deriving Repr

/-- `updateSingle` lifted to the whole application state; it only touches the
event collection. -/
def updateSingleApp {α : Type} (u : String) (body : UpdateBody) (w : AppState α) :
    AppState α :=
  { w with events := updateSingle u body w.events }

/-- ASCII lowercasing of one character, the per-character behaviour of the
case-insensitive comparison `ILIKE` performs. -/
def lowerChar (c : Char) : Char :=
  if 'A' ≤ c ∧ c ≤ 'Z' then Char.ofNat (c.toNat + 32) else c

/-- Lowercase a whole string (as a character list). -/
def lowerStr (l : List Char) : List Char := l.map lowerChar

/-- Model of the SQL `LIKE`/`ILIKE` pattern matcher (Postgres semantics):
`%` matches any sequence, `_` matches any single character, a backslash
escapes the next pattern character, and every other character matches
itself. -/
def likeMatches : List Char → List Char → Bool
  | [], t => t.isEmpty
  | p :: ps, t =>
      if p = '%' then
        likeMatches ps t ||
          (match t with
           | [] => false
           | _ :: ts => likeMatches (p :: ps) ts)
      else if p = '_' then
        match t with
        | [] => false
        | _ :: ts => likeMatches ps ts
      else if p = '\\' then
        match ps with
        | [] => false
        | e :: ps' =>
            match t with
            | [] => false
            | c :: ts => e = c && likeMatches ps' ts
      else
        match t with
        | [] => false
        | c :: ts => p = c && likeMatches ps ts
termination_by p t => p.length + t.length

/-- The pattern the autocomplete endpoint builds: `'%' + q + '%'`,
interpolated without any escaping of `q`. -/
def likePatternFor (q : String) : List Char := '%' :: q.toList ++ ['%']

/-- `summary ILIKE '%q%'`: case-insensitive LIKE match of the unescaped
pattern against the stored summary. -/
def iLikeQ (q : String) (s : String) : Bool :=
  likeMatches (lowerStr (likePatternFor q)) (lowerStr s.toList)

/-- Byte-order (equivalently code-point-order) comparison of strings, the
model of the store's `ORDER BY summary ASC` collation. -/
def charListLe : List Char → List Char → Bool
  | [], _ => true
  | _ :: _, [] => false
  | a :: as, b :: bs => if a < b then true else if b < a then false else charListLe as bs

/-- The string order used for `ORDER BY summary ASC`. -/
def strLe (a b : String) : Prop := charListLe a.toList b.toList = true

instance : DecidableRel strLe := fun a b => by unfold strLe; infer_instance

/-- Model of
`SELECT DISTINCT summary FROM events WHERE summary ILIKE '%q%' ORDER BY summary ASC LIMIT 10`
over the multiset of stored summaries. -/
def sqlPetNames (q : String) (summaries : List String) : List String :=
  (List.insertionSort strLe ((summaries.filter (fun s => iLikeQ q s)).dedup)).take 10

/-- The number of UTF-16 code units of a string, which is what JavaScript's
`String.prototype.length` counts. -/
def jsStrLen (s : String) : Nat :=
  (s.toList.map (fun c => if c.toNat ≥ 65536 then 2 else 1)).sum

/-- The `getPetNames` handler: a missing query or one shorter than 2
(UTF-16) characters answers an empty list (status 200); otherwise the SQL
lookup above. -/
def getPetNames (q : Option String) (summaries : List String) : List String :=
  match q with
  | none => []
  | some s => if jsStrLen s < 2 then [] else sqlPetNames s summaries

/-- The list of calendar days (as civil day numbers) in the inclusive range
`[lo, hi]`, the reference enumeration the expander is compared against. -/
def intRange (lo hi : Int) : List Int :=
  (List.range (hi + 1 - lo).toNat).map (fun k => lo + Int.ofNat k)

/-- The `(dtstart, dtend)` pairs of the rows of one series, the content the
idempotence property compares. -/
def seriesPairs (sid : String) (l : List EventRow) : List (Int × Int) :=
  (l.filter (fun r => r.series_id = some sid)).map (fun r => (r.dtstart, r.dtend))

/-- A query (lowered) string has none of the `LIKE` metacharacters, so the
pattern `'%' + q + '%'` reads it literally. -/
def plainChars (l : List Char) : Prop :=
  ∀ c ∈ l, c ≠ '%' ∧ c ≠ '_' ∧ c ≠ '\\'

instance (l : List Char) : Decidable (plainChars l) := by
  unfold plainChars
  infer_instance

-- concrete fixtures used by the witness theorems
def uidsA : Nat → String := fun _ => "u"
def uidsB : Nat → String := fun _ => "v"

def bodyMWF : SeriesBody :=
  { summary := "Fluffy"
    time := "09:00"
    duration := 60
    recurring_days := [(1, true), (3, true), (5, true)]
    recur_until := "2024-01-07"
    series_start_date := "2024-01-01"
    type := "walk"
    description := none }

def bodyMeet : SeriesBody := { bodyMWF with type := "meet-and-greet" }

def bodyAllDays : SeriesBody := { bodyMWF with recurring_days := [(2, false)] }

def bodyBadStart : SeriesBody := { bodyMWF with series_start_date := "garbage" }

def bodyRev : SeriesBody :=
  { bodyMWF with series_start_date := "2024-01-07", recur_until := "2024-01-01" }

def rowS1 : EventRow :=
  { uid := "e1"
    summary := "Fluffy"
    type := "walk"
    dtstart := 0
    dtend := 60
    description := none
    is_recurring := true
    recurring_days := some [(1, true)]
    series_id := some "s1"
    recur_until := some "2024-01-07"
    series_start_date := some "2024-01-01" }

def rowOther : EventRow := { rowS1 with uid := "e2", series_id := none }

def rowMeet0 : EventRow :=
  { uid := "manual-u"
    summary := "Fluffy"
    type := "meet-and-greet"
    dtstart := 19723 * 1440 + 540
    dtend := 19723 * 1440 + 570
    description := none
    is_recurring := true
    recurring_days := some [(1, true), (3, true), (5, true)]
    series_id := some "s1"
    recur_until := some "2024-01-07"
    series_start_date := some "2024-01-01" }

def updBodyBare : UpdateBody :=
  { summary := "Rex"
    type := "walk"
    dtstart := 100
    dtend := 160
    description := none
    is_recurring := none
    recurring_days := none
    series_id := none
    recur_until := none
    series_start_date := none }

-- sanity checks on the store model
example : likeMatches (lowerStr (likePatternFor "fl")) (lowerStr "Fluffy".toList) = true := by
  simp [likeMatches, likePatternFor, lowerStr, lowerChar]
example : getPetNames (some "fl") ["Fluffy", "Flash", "Spike"] = ["Flash", "Fluffy"] := by
  simp [getPetNames, sqlPetNames, iLikeQ, likeMatches, likePatternFor, lowerStr, lowerChar,
    jsStrLen, List.insertionSort, List.orderedInsert, strLe, charListLe, List.dedup]

-- sanity checks on the date model
example : parseDateTime "2024-01-01" = some (19723 * 1440) := by decide
example : parseDateTime "2024-01-07" "23:59" = some (19729 * 1440 + 1439) := by decide
example : jsGetDay (19723 * 1440) = 1 := by decide
example : parseDateTime "garbage" = none := by decide
example : parseTimeMins "09:00" = some 540 := by decide
example : parseTimeMins "garbage" = none := by decide
example : parseDateTime "2024-01-07T10:00" = some (19729 * 1440) := by decide
example : jsMakeDate 1970 0 1 0 0 = 0 := by decide
example : jsMakeDate 2023 12 1 0 0 = jsMakeDate 2024 0 1 0 0 := by decide

/-! ## Auxiliary lemmas on the day enumeration -/

theorem intRange_nil {lo hi : Int} (h : hi < lo) : intRange lo hi = [] := by
  unfold intRange
  have h2 : (hi + 1 - lo).toNat = 0 := by omega
  rw [h2]
  rfl

theorem intRange_cons {lo hi : Int} (h : lo ≤ hi) :
    intRange lo hi = lo :: intRange (lo + 1) hi := by
  unfold intRange
  have h2 : (hi + 1 - lo).toNat = (hi + 1 - (lo + 1)).toNat + 1 := by omega
  rw [h2, List.range_succ_eq_map, List.map_cons, List.map_map]
  congr 1
  · simp
  · apply List.map_congr_left
    intro a _
    simp only [Function.comp_apply, Int.ofNat_eq_natCast]
    omega

theorem jsGetDay_mul (d : Int) : jsGetDay (d * 1440) = (d + 4) % 7 := by
  unfold jsGetDay
  omega

theorem formatDateToYYYYMMDD_mul (d : Int) : formatDateToYYYYMMDD (d * 1440) = d := by
  unfold formatDateToYYYYMMDD
  omega

/-- One day of the expansion stream produces exactly the `mkSeriesRow` row
when the weekday is selected, and the characterisation of its `dtstart`
follows; this is the per-range induction behind the C1/C4 theorems. -/
theorem expandStream_dtstarts (sid : String) (body : SeriesBody) (sel : List Int)
    (uids : Nat → String) (tm : Int) (hT : parseTimeMins body.time = some tm) :
    ∀ (k : Nat) (uDay d0 : Int) (n : Nat), (uDay + 1 - d0).toNat = k →
      ((expandStream sid body sel uids n (d0 * 1440) (uDay * 1440 + 1439)).filterMap id).map
          (fun r => r.dtstart)
        = ((intRange d0 uDay).filter (fun d => sel.contains ((d + 4) % 7))).map
            (fun d => d * 1440 + tm) := by
  intro k
  induction k with
  | zero =>
      intro uDay d0 n h0
      rw [expandStream, dif_neg (by omega : ¬ (d0 * 1440 ≤ uDay * 1440 + 1439))]
      rw [intRange_nil (by omega)]
      rfl
  | succ k ih =>
      intro uDay d0 n hk
      have hle : d0 ≤ uDay := by omega
      rw [expandStream, dif_pos (by omega : d0 * 1440 ≤ uDay * 1440 + 1439)]
      rw [jsGetDay_mul, intRange_cons hle, List.filter_cons]
      by_cases hc : sel.contains ((d0 + 4) % 7) = true
      · simp only [hc, if_true, mkSeriesRow, hT, formatDateToYYYYMMDD_mul,
          List.singleton_append, List.filterMap_cons, id, List.map_cons]
        rw [show d0 * 1440 + 1440 = (d0 + 1) * 1440 from by ring]
        rw [ih uDay (d0 + 1) (n + 1) (by omega)]
      · simp only [hc, if_false, List.nil_append]
        rw [show d0 * 1440 + 1440 = (d0 + 1) * 1440 from by ring]
        exact ih uDay (d0 + 1) n (by omega)

/-! ## C1: the expander enumerates exactly the selected days of the range -/

/-- C1: for a series specification with a non-empty weekday selection, the
expansion loop produces exactly one instance per calendar day in the
inclusive range `[series_start_date, recur_until]` whose weekday lies in the
selection, in ascending order with no duplicates; in particular the final
day `recur_until` itself is enumerated, because the end bound is normalized
to 23:59 before the `<=` stopping comparison.  The produced `dtstart`
timestamps are the filtered ascending day list, each at the series
time-of-day. -/
theorem c1_expander_exact_selected_days (sid : String) (body : SeriesBody)
    (uids : Nat → String) (startDay uDay tm : Int)
    (hSel : selectedDaysRaw body.recurring_days ≠ [])
    (hT : parseTimeMins body.time = some tm)
    (hS : parseDateTime body.series_start_date = some (startDay * 1440))
    (hU : parseDateTime body.recur_until "23:59" = some (uDay * 1440 + 1439)) :
    (expandedRows sid body uids).map (fun r => r.dtstart)
      = ((intRange startDay uDay).filter
          (fun d => (selectedDaysRaw body.recurring_days).contains ((d + 4) % 7))).map
          (fun d => d * 1440 + tm) := by
  unfold expandedRows streamOf
  simp only [hS, hU]
  have hEq : jsSelectedDays body.recurring_days = selectedDaysRaw body.recurring_days := by
    simp only [jsSelectedDays]
    rw [if_neg hSel]
  rw [hEq]
  exact expandStream_dtstarts sid body _ uids tm hT _ uDay startDay 0 rfl

/-- Witness for C1: the spec's own scenario (Mon/Wed/Fri selection over
2024-01-01 .. 2024-01-07 at 09:00) yields instances on Jan 1, 3 and 5. -/
theorem c1_expander_exact_selected_days_witness :
    selectedDaysRaw bodyMWF.recurring_days ≠ [] ∧
    (expandedRows "s1" bodyMWF uidsA).map (fun r => r.dtstart)
      = [19723 * 1440 + 540, 19725 * 1440 + 540, 19727 * 1440 + 540] := by
  refine ⟨by decide, ?_⟩
  rw [c1_expander_exact_selected_days "s1" bodyMWF uidsA 19723 19729 540
    (by decide) (by decide) (by decide) (by decide)]
  decide

/-! ## C4: an empty weekday selection means every day -/

/-- C4: when the weekday selection of the request is empty, the handler
replaces it by all seven weekdays, so the expansion produces one instance
for every calendar day of the range instead of skipping the whole range. -/
theorem c4_empty_selection_every_day (sid : String) (body : SeriesBody)
    (uids : Nat → String) (startDay uDay tm : Int)
    (hSel : selectedDaysRaw body.recurring_days = [])
    (hT : parseTimeMins body.time = some tm)
    (hS : parseDateTime body.series_start_date = some (startDay * 1440))
    (hU : parseDateTime body.recur_until "23:59" = some (uDay * 1440 + 1439)) :
    (expandedRows sid body uids).map (fun r => r.dtstart)
      = (intRange startDay uDay).map (fun d => d * 1440 + tm) := by
  unfold expandedRows streamOf
  simp only [hS, hU]
  have hEq : jsSelectedDays body.recurring_days = [0, 1, 2, 3, 4, 5, 6] := by
    simp only [jsSelectedDays]
    rw [if_pos hSel]
  rw [hEq]
  rw [expandStream_dtstarts sid body _ uids tm hT _ uDay startDay 0 rfl]
  congr 1
  apply List.filter_eq_self.mpr
  intro d _
  simp only [List.contains, List.elem_eq_mem, decide_eq_true_eq, List.mem_cons,
    List.mem_singleton, List.not_mem_nil]
  omega

/-- Witness for C4: a selection object with no truthy weekday over
2024-01-01 .. 2024-01-07 yields all seven days. -/
theorem c4_empty_selection_every_day_witness :
    selectedDaysRaw bodyAllDays.recurring_days = [] ∧
    (expandedRows "s1" bodyAllDays uidsA).map (fun r => r.dtstart)
      = [19723 * 1440 + 540, 19724 * 1440 + 540, 19725 * 1440 + 540, 19726 * 1440 + 540,
         19727 * 1440 + 540, 19728 * 1440 + 540, 19729 * 1440 + 540] := by
  refine ⟨by decide, ?_⟩
  rw [c4_empty_selection_every_day "s1" bodyAllDays uidsA 19723 19729 540
    (by decide) (by decide) (by decide) (by decide)]
  decide

/-! ## C5: termination and the inverted range -/

/-- C5: the expansion is a finite forward day walk (`expandStream` is a
total function, defined by well-founded recursion on the remaining day
count), and when `recur_until` parses to a day strictly before
`series_start_date` the `while` guard fails at once, so the loop yields the
empty sequence without error. -/
theorem c5_inverted_range_yields_nothing (sid : String) (body : SeriesBody)
    (uids : Nat → String) (startDay uDay : Int)
    (hS : parseDateTime body.series_start_date = some (startDay * 1440))
    (hU : parseDateTime body.recur_until "23:59" = some (uDay * 1440 + 1439))
    (h : uDay < startDay) :
    streamOf sid body uids = [] := by
  unfold streamOf
  simp only [hS, hU]
  rw [expandStream, dif_neg (by omega : ¬ (startDay * 1440 ≤ uDay * 1440 + 1439))]

/-- Witness for C5: start 2024-01-07, end 2024-01-01 expands to nothing. -/
theorem c5_inverted_range_yields_nothing_witness :
    streamOf "s1" bodyRev uidsA = [] := by
  rw [c5_inverted_range_yields_nothing "s1" bodyRev uidsA 19729 19723
    (by decide) (by decide) (by decide)]

/-! ## C3: the per-type duration rule -/

/-- Every element of the expansion stream is a `mkSeriesRow` for some
generated identifier and some iteration day. -/
theorem mem_expandStream_mk (sid : String) (body : SeriesBody) (sel : List Int)
    (uids : Nat → String) :
    ∀ (n : Nat) (cur untilM : Int), ∀ o ∈ expandStream sid body sel uids n cur untilM,
      ∃ u c, o = mkSeriesRow sid body u c := by
  intro n cur untilM
  generalize hm : (untilM + 1440 - cur).toNat = m
  induction m using Nat.strong_induction_on generalizing n cur with
  | _ m ih =>
    rw [expandStream]
    by_cases h : cur ≤ untilM
    · rw [dif_pos h]
      intro o ho
      rcases List.mem_append.mp ho with h1 | h2
      · by_cases hc : sel.contains (jsGetDay cur) = true
        · rw [if_pos hc] at h1
          exact ⟨uids n, cur, List.mem_singleton.mp h1⟩
        · rw [if_neg hc] at h1
          exact absurd h1 (List.not_mem_nil o)
      · exact ih ((untilM + 1440 - (cur + 1440)).toNat) (by omega) _ _ rfl o h2
    · rw [dif_neg h]
      intro o ho
      exact absurd ho (List.not_mem_nil o)

/-- The shared shape of every row `mkSeriesRow` produces: the emitted
duration is 30 minutes for the `"meet-and-greet"` sentinel type and the
caller-supplied duration otherwise, and the series-wide fields are copied
onto the row. -/
theorem mkSeriesRow_some (sid : String) (body : SeriesBody) (u : String) (c : Int)
    (r : EventRow) (h : mkSeriesRow sid body u c = some r) :
    r.dtend - r.dtstart = (if body.type = "meet-and-greet" then 30 else body.duration) ∧
    r.series_id = some sid ∧ r.is_recurring = true ∧
    r.summary = body.summary ∧ r.type = body.type ∧
    r.recurring_days = some body.recurring_days ∧
    r.recur_until = some body.recur_until ∧
    r.series_start_date = some body.series_start_date := by
  unfold mkSeriesRow at h
  cases hT : parseTimeMins body.time with
  | none =>
      rw [hT] at h
      exact absurd h (by simp)
  | some tm =>
      rw [hT] at h
      have hr : r = { uid := "manual-" ++ u
                      summary := body.summary
                      type := body.type
                      dtstart := formatDateToYYYYMMDD c * 1440 + tm
                      dtend := formatDateToYYYYMMDD c * 1440 + tm +
                        (if body.type = "meet-and-greet" then 30 else body.duration)
                      description := orNullStr body.description
                      is_recurring := true
                      recurring_days := some body.recurring_days
                      series_id := some sid
                      recur_until := some body.recur_until
                      series_start_date := some body.series_start_date } := by
        exact (Option.some_inj.mp h).symm
      subst hr
      refine ⟨by simp, rfl, rfl, rfl, rfl, rfl, rfl, rfl⟩

/-- Membership in `expandedRows` comes from a `some` element of the stream. -/
theorem mem_expandedRows (sid : String) (body : SeriesBody) (uids : Nat → String)
    (r : EventRow) (hr : r ∈ expandedRows sid body uids) :
    ∃ u c, mkSeriesRow sid body u c = some r := by
  unfold expandedRows at hr
  rcases List.mem_filterMap.mp hr with ⟨o, ho, hid⟩
  have ho' : o = some r := hid
  subst ho'
  unfold streamOf at ho
  cases h1 : parseDateTime body.series_start_date with
  | none =>
      rw [h1] at ho
      exact absurd ho (List.not_mem_nil _)
  | some cur =>
      cases h2 : parseDateTime body.recur_until "23:59" with
      | none =>
          rw [h1, h2] at ho
          exact absurd ho (List.not_mem_nil _)
      | some untilM =>
          rw [h1, h2] at ho
          rcases mem_expandStream_mk sid body _ uids 0 cur untilM _ ho with ⟨u, c, hmk⟩
          exact ⟨u, c, hmk.symm⟩

/-- C3: every instance the expansion inserts satisfies the per-type duration
rule: for the `"meet-and-greet"` event type the distance from `dtstart` to
`dtend` is exactly 30 minutes regardless of the caller-supplied duration,
and otherwise it is exactly the caller-supplied `duration` minutes. -/
theorem c3_effective_duration (sid : String) (body : SeriesBody)
    (uids : Nat → String) (r : EventRow) (hr : r ∈ expandedRows sid body uids) :
    r.dtend - r.dtstart = if body.type = "meet-and-greet" then 30 else body.duration := by
  rcases mem_expandedRows sid body uids r hr with ⟨u, c, hmk⟩
  exact (mkSeriesRow_some sid body u c r hmk).1

/-- Witness for C3: with event type `"meet-and-greet"` and caller duration
60, the produced instance on 2024-01-01 runs 09:00 to 09:30. -/
theorem c3_effective_duration_witness :
    rowMeet0 ∈ expandedRows "s1" bodyMeet uidsA ∧
    rowMeet0.dtend - rowMeet0.dtstart
      = (if bodyMeet.type = "meet-and-greet" then 30 else bodyMeet.duration) := by
  have hmem : rowMeet0 ∈ expandedRows "s1" bodyMeet uidsA := by
    simp [expandedRows, streamOf, expandStream, mkSeriesRow, parseTimeMins, parseDateTime,
      jsSelectedDays, selectedDaysRaw, bodyMeet, bodyMWF, uidsA, rowMeet0, jsGetDay,
      formatDateToYYYYMMDD, jsMakeDate, daysFromCivil, splitOnChar, jsNumber, digitsVal,
      orNullStr]
  exact ⟨hmem, c3_effective_duration "s1" bodyMeet uidsA rowMeet0 hmem⟩

/-! ## C2: atomicity of replaceSeries -/

/-- The insert phase never touches the committed table while a transaction
is open, and on full success the transaction view has gained exactly the
stream's rows, in order. -/
theorem insertLoop_spec (sched : Nat → Bool) :
    ∀ (stream : List (Option EventRow)) (i : Nat) (c : PgClient) (t : List EventRow),
      c.txn = some t →
      (insertLoop sched stream i c).1.committed = c.committed ∧
      ((insertLoop sched stream i c).2 = true →
        (insertLoop sched stream i c).1.txn = some (t ++ stream.filterMap id)) := by
  intro stream
  induction stream with
  | nil =>
      intro i c t ht
      refine ⟨rfl, fun _ => ?_⟩
      simp [insertLoop, ht]
  | cons o rest ih =>
      intro i c t ht
      cases o with
      | none => simp [insertLoop]
      | some r =>
          by_cases hs : sched i = true
          · simp [insertLoop, hs]
          · have hc' : (pgRun (fun s => s ++ [r]) c).txn = some (t ++ [r]) := by
              simp [pgRun, ht]
            have hcc : (pgRun (fun s => s ++ [r]) c).committed = c.committed := by
              simp [pgRun, ht]
            obtain ⟨h1, h2⟩ := ih (i + 1) _ (t ++ [r]) hc'
            simp only [insertLoop, hs, Bool.false_eq_true, if_false]
            refine ⟨by rw [h1, hcc], fun hsucc => ?_⟩
            rw [h2 hsucc]
            simp

/-- Committed-state characterisation of `replaceSeries`: on a 200 the store
holds the survivors of the delete followed by the regenerated instances; on
any failure the rollback leaves the committed store exactly as it was. -/
theorem putSeries_committed (sid : String) (body : SeriesBody) (uids : Nat → String)
    (delFail : Bool) (sched : Nat → Bool) (store : List EventRow) :
    (putSeries sid body uids delFail sched ⟨store, none⟩).1.committed
      = if (putSeries sid body uids delFail sched ⟨store, none⟩).2 = 200 then
          store.filter (fun r => ¬(r.series_id = some sid)) ++ expandedRows sid body uids
        else store := by
  cases delFail with
  | true => simp [putSeries, pgBegin, pgRollback]
  | false =>
      have ht : (pgRun (fun s => s.filter (fun r => ¬(r.series_id = some sid)))
          (pgBegin ⟨store, none⟩)).txn
            = some (store.filter (fun r => ¬(r.series_id = some sid))) := rfl
      obtain ⟨h1, h2⟩ := insertLoop_spec sched (streamOf sid body uids) 0 _ _ ht
      by_cases hb : (insertLoop sched (streamOf sid body uids) 0
          (pgRun (fun s => s.filter (fun r => ¬(r.series_id = some sid)))
            (pgBegin ⟨store, none⟩))).2 = true
      · simp only [putSeries, Bool.false_eq_true, if_false, hb, if_true]
        unfold pgCommit
        rw [h2 hb]
        rfl
      · simp only [putSeries, Bool.false_eq_true, if_false, hb]
        rw [if_neg (by decide : ¬ (500 = 200))]
        exact h1

/-- Every regenerated instance is tagged with the series identifier of the
request. -/
theorem expandedRows_series_id (sid : String) (body : SeriesBody) (uids : Nat → String) :
    ∀ r ∈ expandedRows sid body uids, r.series_id = some sid := by
  intro r hr
  rcases mem_expandedRows sid body uids r hr with ⟨u, c, hmk⟩
  exact (mkSeriesRow_some sid body u c r hmk).2.1

/-- C2: `replaceSeries` is atomic.  Inside one transaction it deletes every
row carrying the series identifier and inserts the freshly expanded
instances, each tagged with that same identifier; when any step fails
(simulated delete failure, insert failure at any position, or a thrown
serialization error) the rollback leaves the previously committed rows — in
particular the pre-existing rows of that series — exactly intact. -/
theorem c2_replace_series_atomic (sid : String) (body : SeriesBody) (uids : Nat → String)
    (delFail : Bool) (sched : Nat → Bool) (store : List EventRow) :
    ((putSeries sid body uids delFail sched ⟨store, none⟩).1.committed
        = if (putSeries sid body uids delFail sched ⟨store, none⟩).2 = 200 then
            store.filter (fun r => ¬(r.series_id = some sid)) ++ expandedRows sid body uids
          else store)
      ∧ ∀ r ∈ expandedRows sid body uids, r.series_id = some sid :=
  ⟨putSeries_committed sid body uids delFail sched store,
   expandedRows_series_id sid body uids⟩

/-- Witness for C2: a store error on the second insert rolls the whole
replacement back, leaving both pre-existing rows (one of them in the
replaced series) untouched. -/
theorem c2_replace_series_atomic_witness :
    (putSeries "s1" bodyMWF uidsA false (fun i => i == 1) ⟨[rowS1, rowOther], none⟩).1.committed
      = [rowS1, rowOther] := by
  have h := (c2_replace_series_atomic "s1" bodyMWF uidsA false (fun i => i == 1)
    [rowS1, rowOther]).1
  rw [h]
  have hstat : (putSeries "s1" bodyMWF uidsA false (fun i => i == 1)
      ⟨[rowS1, rowOther], none⟩).2 = 500 := by
    simp [putSeries, streamOf, expandStream, mkSeriesRow, parseTimeMins, parseDateTime,
      jsSelectedDays, selectedDaysRaw, bodyMWF, uidsA, jsGetDay, formatDateToYYYYMMDD,
      jsMakeDate, daysFromCivil, splitOnChar, jsNumber, digitsVal, insertLoop, pgBegin,
      pgRun, pgCommit, pgRollback, rowS1, rowOther]
  rw [hstat, if_neg (by decide : ¬ (500 = 200))]

/-! ## C7: idempotence in content of replaceSeries -/

/-- The `(dtstart, dtend)` pairs of the expansion do not depend on the
generated identifiers (nor on the position of the identifier counter). -/
theorem expandStream_pairs_indep (sid : String) (body : SeriesBody) (sel : List Int)
    (uids1 uids2 : Nat → String) :
    ∀ (m : Nat) (cur untilM : Int) (n1 n2 : Nat), (untilM + 1440 - cur).toNat = m →
      ((expandStream sid body sel uids1 n1 cur untilM).filterMap id).map
          (fun r => (r.dtstart, r.dtend))
        = ((expandStream sid body sel uids2 n2 cur untilM).filterMap id).map
            (fun r => (r.dtstart, r.dtend)) := by
  intro m
  induction m using Nat.strong_induction_on with
  | _ m ih =>
    intro cur untilM n1 n2 hm
    by_cases h : cur ≤ untilM
    · conv_lhs => rw [expandStream]
      conv_rhs => rw [expandStream]
      rw [dif_pos h, dif_pos h]
      by_cases hc : sel.contains (jsGetDay cur) = true
      · simp only [hc, if_true]
        cases hT : parseTimeMins body.time with
        | none =>
            simp only [mkSeriesRow, hT, List.singleton_append, List.filterMap_cons]
            exact ih _ (by omega) (cur + 1440) untilM (n1 + 1) (n2 + 1) rfl
        | some tm =>
            simp only [mkSeriesRow, hT, List.singleton_append, List.filterMap_cons,
              id, List.map_cons]
            rw [ih _ (by omega) (cur + 1440) untilM (n1 + 1) (n2 + 1) rfl]
      · simp only [hc, Bool.false_eq_true, if_false, List.nil_append]
        exact ih _ (by omega) (cur + 1440) untilM n1 n2 rfl
    · conv_lhs => rw [expandStream]
      conv_rhs => rw [expandStream]
      rw [dif_neg h, dif_neg h]

/-- The length of the expansion stream does not depend on the generated
identifiers. -/
theorem expandStream_length_indep (sid : String) (body : SeriesBody) (sel : List Int)
    (uids1 uids2 : Nat → String) :
    ∀ (m : Nat) (cur untilM : Int) (n1 n2 : Nat), (untilM + 1440 - cur).toNat = m →
      (expandStream sid body sel uids1 n1 cur untilM).length
        = (expandStream sid body sel uids2 n2 cur untilM).length := by
  intro m
  induction m using Nat.strong_induction_on with
  | _ m ih =>
    intro cur untilM n1 n2 hm
    by_cases h : cur ≤ untilM
    · conv_lhs => rw [expandStream]
      conv_rhs => rw [expandStream]
      rw [dif_pos h, dif_pos h]
      by_cases hc : sel.contains (jsGetDay cur) = true
      · simp only [hc, if_true, List.singleton_append, List.length_cons]
        rw [ih _ (by omega) (cur + 1440) untilM (n1 + 1) (n2 + 1) rfl]
      · simp only [hc, Bool.false_eq_true, if_false, List.nil_append]
        exact ih _ (by omega) (cur + 1440) untilM n1 n2 rfl
    · conv_lhs => rw [expandStream]
      conv_rhs => rw [expandStream]
      rw [dif_neg h, dif_neg h]

/-- When the time-of-day string does not parse, every iteration of the
stream is an invalid-date element. -/
theorem streamOf_time_invalid (sid : String) (body : SeriesBody) (uids : Nat → String)
    (hT : parseTimeMins body.time = none) :
    ∀ o ∈ streamOf sid body uids, o = none := by
  intro o ho
  unfold streamOf at ho
  cases h1 : parseDateTime body.series_start_date with
  | none =>
      rw [h1] at ho
      exact absurd ho (List.not_mem_nil _)
  | some cur =>
      cases h2 : parseDateTime body.recur_until "23:59" with
      | none =>
          rw [h1, h2] at ho
          exact absurd ho (List.not_mem_nil _)
      | some untilM =>
          rw [h1, h2] at ho
          rcases mem_expandStream_mk sid body _ uids 0 cur untilM o ho with ⟨u, c, hmk⟩
          rw [hmk]
          unfold mkSeriesRow
          rw [hT]

/-- When the time-of-day string parses, every iteration of the stream is a
real row. -/
theorem streamOf_time_valid (sid : String) (body : SeriesBody) (uids : Nat → String)
    (tm : Int) (hT : parseTimeMins body.time = some tm) :
    ∀ o ∈ streamOf sid body uids, o ≠ none := by
  intro o ho
  unfold streamOf at ho
  cases h1 : parseDateTime body.series_start_date with
  | none =>
      rw [h1] at ho
      exact absurd ho (List.not_mem_nil _)
  | some cur =>
      cases h2 : parseDateTime body.recur_until "23:59" with
      | none =>
          rw [h1, h2] at ho
          exact absurd ho (List.not_mem_nil _)
      | some untilM =>
          rw [h1, h2] at ho
          rcases mem_expandStream_mk sid body _ uids 0 cur untilM o ho with ⟨u, c, hmk⟩
          rw [hmk]
          simp [mkSeriesRow, hT]

/-- With no simulated store errors, the insert loop succeeds as soon as
every element of the stream is a real row. -/
theorem insertLoop_success_of_all_some :
    ∀ (stream : List (Option EventRow)) (i : Nat) (c : PgClient),
      (∀ o ∈ stream, o ≠ none) →
      (insertLoop (fun _ => false) stream i c).2 = true := by
  intro stream
  induction stream with
  | nil => intro i c _; rfl
  | cons o rest ih =>
      intro i c hall
      cases o with
      | none => exact absurd rfl (hall none (List.mem_cons_self _ _))
      | some r =>
          simp only [insertLoop, Bool.false_eq_true, if_false]
          exact ih _ _ (fun o ho => hall o (List.mem_cons_of_mem _ ho))

/-- The status code of `replaceSeries` (with an error-free store) does not
depend on the generated identifiers or on the store content. -/
theorem putSeries_status_indep (sid : String) (body : SeriesBody)
    (uids1 uids2 : Nat → String) (s1 s2 : List EventRow) :
    (putSeries sid body uids1 false (fun _ => false) ⟨s1, none⟩).2
      = (putSeries sid body uids2 false (fun _ => false) ⟨s2, none⟩).2 := by
  have hred : ∀ (uids : Nat → String) (s : List EventRow),
      (putSeries sid body uids false (fun _ => false) ⟨s, none⟩).2
        = if (insertLoop (fun _ => false) (streamOf sid body uids) 0
            (pgRun (fun l => l.filter (fun r => ¬(r.series_id = some sid)))
              (pgBegin ⟨s, none⟩))).2 = true then 200 else 500 := by
    intro uids s
    simp only [putSeries, Bool.false_eq_true, if_false]
    by_cases hp : (insertLoop (fun _ => false) (streamOf sid body uids) 0
        (pgRun (fun l => l.filter (fun r => ¬(r.series_id = some sid)))
          (pgBegin ⟨s, none⟩))).2 = true
    · rw [if_pos hp, if_pos hp]
    · rw [if_neg hp, if_neg hp]
  rw [hred uids1 s1, hred uids2 s2]
  cases hT : parseTimeMins body.time with
  | some tm =>
      rw [insertLoop_success_of_all_some _ _ _ (streamOf_time_valid sid body uids1 tm hT),
        insertLoop_success_of_all_some _ _ _ (streamOf_time_valid sid body uids2 tm hT)]
  | none =>
      have hlen : (streamOf sid body uids1).length = (streamOf sid body uids2).length := by
        unfold streamOf
        cases h1 : parseDateTime body.series_start_date with
        | none => rfl
        | some cur =>
            cases h2 : parseDateTime body.recur_until "23:59" with
            | none => rfl
            | some untilM =>
                exact expandStream_length_indep sid body _ uids1 uids2 _ cur untilM 0 0 rfl
      cases hS1 : streamOf sid body uids1 with
      | nil =>
          have hS2 : streamOf sid body uids2 = [] := by
            apply List.length_eq_zero.mp
            rw [← hlen, hS1]
            rfl
          rw [hS2]
          rfl
      | cons o rest =>
          have ho : o = none :=
            streamOf_time_invalid sid body uids1 hT o (hS1 ▸ List.mem_cons_self _ _)
          cases hS2 : streamOf sid body uids2 with
          | nil =>
              rw [hS1, hS2] at hlen
              exact absurd hlen (by simp)
          | cons o2 rest2 =>
              have ho2 : o2 = none :=
                streamOf_time_invalid sid body uids2 hT o2 (hS2 ▸ List.mem_cons_self _ _)
              rw [ho, ho2]
              rfl

/-- The `(dtstart, dtend)` pairs of the regenerated instances do not depend
on the generated identifiers. -/
theorem expandedRows_pairs_indep (sid : String) (body : SeriesBody)
    (uids1 uids2 : Nat → String) :
    (expandedRows sid body uids1).map (fun r => (r.dtstart, r.dtend))
      = (expandedRows sid body uids2).map (fun r => (r.dtstart, r.dtend)) := by
  unfold expandedRows streamOf
  cases h1 : parseDateTime body.series_start_date with
  | none => rfl
  | some cur =>
      cases h2 : parseDateTime body.recur_until "23:59" with
      | none => rfl
      | some untilM =>
          exact expandStream_pairs_indep sid body _ uids1 uids2 _ cur untilM 0 0 rfl

/-- Rows all tagged with the series identifier vanish under the delete
filter. -/
theorem filter_not_sid_of_all (sid : String) (rows : List EventRow)
    (hrows : ∀ r ∈ rows, r.series_id = some sid) :
    rows.filter (fun r => ¬(r.series_id = some sid)) = [] := by
  rw [List.filter_eq_nil_iff]
  intro r hr
  simp [hrows r hr]

/-- The delete filter is idempotent. -/
theorem filter_not_sid_idem (sid : String) (store : List EventRow) :
    (store.filter (fun r => ¬(r.series_id = some sid))).filter
        (fun r => ¬(r.series_id = some sid))
      = store.filter (fun r => ¬(r.series_id = some sid)) :=
  List.filter_eq_self.mpr (fun _ hr => (List.mem_filter.mp hr).2)

/-- The series content of a delete-then-insert result is exactly the
inserted rows. -/
theorem seriesPairs_append (sid : String) (store rows : List EventRow)
    (hrows : ∀ r ∈ rows, r.series_id = some sid) :
    seriesPairs sid (store.filter (fun r => ¬(r.series_id = some sid)) ++ rows)
      = rows.map (fun r => (r.dtstart, r.dtend)) := by
  unfold seriesPairs
  rw [List.filter_append]
  have h1 : (store.filter (fun r => ¬(r.series_id = some sid))).filter
      (fun r => r.series_id = some sid) = [] := by
    rw [List.filter_eq_nil_iff]
    intro r hr
    have := (List.mem_filter.mp hr).2
    simp at this
    simp [this]
  have h2 : rows.filter (fun r => r.series_id = some sid) = rows :=
    List.filter_eq_self.mpr (fun r hr => by simp [hrows r hr])
  rw [h1, h2, List.nil_append]

/-- C7: replacing a series is idempotent in content.  Running the
delete-and-regenerate operation twice with the same series specification
(and fresh random identifiers each time) leaves the same multiset of
`(dtstart, dtend)` pairs for that series after the second run as after the
first, whatever identifiers the two runs drew. -/
theorem c7_replace_idempotent_content (sid : String) (body : SeriesBody)
    (uids1 uids2 : Nat → String) (store : List EventRow) :
    seriesPairs sid
        (putSeries sid body uids2 false (fun _ => false)
          ⟨(putSeries sid body uids1 false (fun _ => false) ⟨store, none⟩).1.committed,
            none⟩).1.committed
      = seriesPairs sid
          (putSeries sid body uids1 false (fun _ => false) ⟨store, none⟩).1.committed := by
  have hA := putSeries_committed sid body uids1 false (fun _ => false) store
  have hB := putSeries_committed sid body uids2 false (fun _ => false)
    (putSeries sid body uids1 false (fun _ => false) ⟨store, none⟩).1.committed
  have hstat := putSeries_status_indep sid body uids1 uids2 store
    (putSeries sid body uids1 false (fun _ => false) ⟨store, none⟩).1.committed
  by_cases h200 : (putSeries sid body uids1 false (fun _ => false) ⟨store, none⟩).2 = 200
  · have h200' : (putSeries sid body uids2 false (fun _ => false)
        ⟨(putSeries sid body uids1 false (fun _ => false) ⟨store, none⟩).1.committed,
          none⟩).2 = 200 := by
      rw [← hstat]
      exact h200
    rw [if_pos h200] at hA
    rw [if_pos h200'] at hB
    rw [hB, hA]
    rw [List.filter_append, filter_not_sid_idem,
      filter_not_sid_of_all sid _ (expandedRows_series_id sid body uids1),
      List.append_nil]
    rw [seriesPairs_append sid _ _ (expandedRows_series_id sid body uids2),
      seriesPairs_append sid _ _ (expandedRows_series_id sid body uids1)]
    exact expandedRows_pairs_indep sid body uids2 uids1
  · have h200' : ¬ (putSeries sid body uids2 false (fun _ => false)
        ⟨(putSeries sid body uids1 false (fun _ => false) ⟨store, none⟩).1.committed,
          none⟩).2 = 200 := by
      rw [← hstat]
      exact h200
    rw [if_neg h200'] at hB
    rw [hB]

/-! ## C9: the single-row update touches only the matched row -/

/-- Rows whose `uid` differs from the update target are left in place,
position by position. -/
theorem updateSingle_getD (u : String) (body : UpdateBody) :
    ∀ (l : List EventRow) (i : Nat) (d : EventRow),
      (l.getD i d).uid ≠ u → (updateSingle u body l).getD i d = l.getD i d := by
  intro l
  induction l with
  | nil => intro i d _; rfl
  | cons r rest ih =>
      intro i d hne
      cases i with
      | zero =>
          simp only [List.getD_cons_zero] at hne ⊢
          simp only [updateSingle, List.map_cons, List.getD_cons_zero]
          rw [if_neg hne]
      | succ i =>
          simp only [List.getD_cons_succ] at hne ⊢
          simp only [updateSingle, List.map_cons, List.getD_cons_succ]
          exact ih i d hne

/-- C9: `updateSingle` modifies at most the row whose `uid` matches: the
event collection keeps its length, every position holding a row with a
different `uid` is unchanged — including sibling rows of the same series —
and no application state outside the event collection is touched. -/
theorem c9_update_single_frame {α : Type} (u : String) (body : UpdateBody)
    (w : AppState α) :
    ((updateSingleApp u body w).events.length = w.events.length) ∧
    (∀ (i : Nat) (d : EventRow), (w.events.getD i d).uid ≠ u →
        (updateSingleApp u body w).events.getD i d = w.events.getD i d) ∧
    (updateSingleApp u body w).other = w.other := by
  refine ⟨?_, ?_, rfl⟩
  · simp [updateSingleApp, updateSingle]
  · intro i d hne
    exact updateSingle_getD u body w.events i d hne

/-- Witness for C9: updating row `e1` in a two-row store keeps the length,
leaves the unrelated row `e2` exactly in place, and leaves the non-event
state untouched. -/
theorem c9_update_single_frame_witness :
    ((updateSingleApp "e1" updBodyBare
        (⟨[rowS1, rowOther], (0 : Nat)⟩ : AppState Nat)).events.length = 2) ∧
    ((updateSingleApp "e1" updBodyBare
        (⟨[rowS1, rowOther], (0 : Nat)⟩ : AppState Nat)).events.getD 1 rowS1 = rowOther) ∧
    ((updateSingleApp "e1" updBodyBare
        (⟨[rowS1, rowOther], (0 : Nat)⟩ : AppState Nat)).other = 0) := by
  have h := c9_update_single_frame "e1" updBodyBare
    (⟨[rowS1, rowOther], (0 : Nat)⟩ : AppState Nat)
  refine ⟨by rw [h.1]; rfl, ?_, h.2.2⟩
  rw [h.2.1 1 rowS1 (by decide)]
  rfl

/-! ## C10: the single-row update overwrites, it does not patch -/

/-- C10: `updateSingle` overwrites every column of the matched row from the
request body.  When `description`, `series_id`, `recur_until`,
`series_start_date` or `recurring_days` is omitted from the body the stored
value becomes null, and an omitted `is_recurring` becomes false, even if
the row previously held non-null values. -/
theorem c10_update_overwrites_omitted_fields (u : String) (body : UpdateBody)
    (store : List EventRow)
    (hd : body.description = none) (hsi : body.series_id = none)
    (hru : body.recur_until = none) (hsd : body.series_start_date = none)
    (hrd : body.recurring_days = none) (hir : body.is_recurring = none) :
    ∀ r ∈ updateSingle u body store, r.uid = u →
      r.description = none ∧ r.series_id = none ∧ r.recur_until = none ∧
      r.series_start_date = none ∧ r.recurring_days = none ∧ r.is_recurring = false := by
  intro r hr hu
  rcases List.mem_map.mp hr with ⟨r0, _, heq⟩
  by_cases h : r0.uid = u
  · rw [if_pos h] at heq
    rw [← heq]
    simp [updatedRow, orNullStr, orFalse, hd, hsi, hru, hsd, hrd, hir]
  · rw [if_neg h] at heq
    rw [← heq] at hu
    exact absurd hu h

/-- Witness for C10: updating row `e1` (which held non-null series fields)
with a body that omits the optional fields nulls them out and resets
`is_recurring`. -/
theorem c10_update_overwrites_omitted_fields_witness :
    (updatedRow updBodyBare rowS1) ∈ updateSingle "e1" updBodyBare [rowS1] ∧
    (updatedRow updBodyBare rowS1).series_id = none ∧
    (updatedRow updBodyBare rowS1).is_recurring = false := by
  have hmem : (updatedRow updBodyBare rowS1) ∈ updateSingle "e1" updBodyBare [rowS1] := by
    decide
  have h := c10_update_overwrites_omitted_fields "e1" updBodyBare [rowS1]
    rfl rfl rfl rfl rfl rfl _ hmem (by decide)
  exact ⟨hmem, h.2.1, h.2.2.2.2.2⟩

/-! ## C6: malformed date strings are not rejected -/

/-- C6 (divergence): the spec demands that a malformed date string make the
operation fail fast with a client validation error, but the handler does
not: `parseDateTime("garbage")` is an invalid date, the `while` guard
compares false at once, and the transaction commits — the request reports
200 success while the series' pre-existing rows have been deleted and
nothing re-inserted.  No validation error is ever surfaced. -/
theorem c6_malformed_start_commits_silently :
    putSeries "s1" bodyBadStart uidsA false (fun _ => false) ⟨[rowS1, rowOther], none⟩
      = (⟨[rowOther], none⟩, 200) := by
  decide

/-! ## C8: the autocomplete endpoint -/

theorem likeMatches_pct_nil : ∀ t : List Char, likeMatches ['%'] t = true := by
  intro t
  induction t with
  | nil =>
      rw [likeMatches.eq_def]
      simp [likeMatches.eq_1]
  | cons c ts ih =>
      rw [likeMatches.eq_def]
      simp [likeMatches.eq_1, ih]

/-- Unfolding of the matcher at a `%` pattern head. -/
theorem likeMatches_pct_unfold (ps t : List Char) :
    likeMatches ('%' :: ps) t
      = (likeMatches ps t ||
          match t with
          | [] => false
          | _ :: ts => likeMatches ('%' :: ps) ts) := by
  rw [likeMatches.eq_def]
  simp

/-- Unfolding of the matcher at a literal pattern head. -/
theorem likeMatches_lit_unfold (a : Char) (ps t : List Char)
    (h1 : a ≠ '%') (h2 : a ≠ '_') (h3 : a ≠ '\\') :
    likeMatches (a :: ps) t
      = (match t with
         | [] => false
         | c :: ts => decide (a = c) && likeMatches ps ts) := by
  rw [likeMatches.eq_def]
  simp [h1, h2, h3]

theorem likeMatches_pct (ps : List Char) :
    ∀ t : List Char, likeMatches ('%' :: ps) t = true ↔
      ∃ n, likeMatches ps (t.drop n) = true := by
  intro t
  induction t with
  | nil =>
      rw [likeMatches_pct_unfold]
      show (likeMatches ps [] || false) = true ↔ ∃ n, likeMatches ps (List.drop n []) = true
      simp only [Bool.or_false, List.drop_nil]
      exact ⟨fun h => ⟨0, h⟩, fun ⟨_, h⟩ => h⟩
  | cons c ts ih =>
      rw [likeMatches_pct_unfold]
      show (likeMatches ps (c :: ts) || likeMatches ('%' :: ps) ts) = true ↔
        ∃ n, likeMatches ps (List.drop n (c :: ts)) = true
      rw [Bool.or_eq_true]
      constructor
      · rintro (h | h)
        · exact ⟨0, h⟩
        · rcases ih.mp h with ⟨n, hn⟩
          exact ⟨n + 1, by simpa using hn⟩
      · rintro ⟨n, hn⟩
        cases n with
        | zero => exact Or.inl hn
        | succ n => exact Or.inr (ih.mpr ⟨n, by simpa using hn⟩)

theorem likeMatches_lit :
    ∀ (p : List Char), plainChars p → ∀ (q t : List Char),
      (likeMatches (p ++ q) t = true ↔ ∃ t2, t = p ++ t2 ∧ likeMatches q t2 = true) := by
  intro p
  induction p with
  | nil =>
      intro _ q t
      simp only [List.nil_append]
      exact ⟨fun h => ⟨t, rfl, h⟩, fun ⟨t2, ht, h⟩ => ht ▸ h⟩
  | cons a p' ih =>
      intro hp q t
      obtain ⟨ha1, ha2, ha3⟩ := hp a (List.mem_cons_self _ _)
      have hp' : plainChars p' := fun c hc => hp c (List.mem_cons_of_mem _ hc)
      cases t with
      | nil =>
          rw [List.cons_append, likeMatches_lit_unfold _ _ _ ha1 ha2 ha3]
          constructor
          · intro h
            simp at h
          · rintro ⟨t2, ht, _⟩
            simp at ht
      | cons c ts =>
          rw [List.cons_append, likeMatches_lit_unfold _ _ _ ha1 ha2 ha3]
          show (decide (a = c) && likeMatches (p' ++ q) ts) = true ↔
            ∃ t2, c :: ts = a :: p' ++ t2 ∧ likeMatches q t2 = true
          rw [Bool.and_eq_true, decide_eq_true_eq]
          constructor
          · rintro ⟨rfl, h⟩
            rcases (ih hp' q ts).mp h with ⟨t2, ht2, hq⟩
            exact ⟨t2, by rw [ht2, List.cons_append], hq⟩
          · rintro ⟨t2, ht, hq⟩
            injection ht with hc hts
            exact ⟨hc.symm, (ih hp' q ts).mpr ⟨t2, hts, hq⟩⟩

/-- A `'%' + literal + '%'` pattern matches exactly the texts containing the
literal as a contiguous substring. -/
theorem likeMatches_pct_lit_pct (p t : List Char) (hp : plainChars p) :
    likeMatches ('%' :: (p ++ ['%'])) t = true ↔ p <:+: t := by
  rw [likeMatches_pct]
  constructor
  · rintro ⟨n, hn⟩
    rcases (likeMatches_lit p hp ['%'] (t.drop n)).mp hn with ⟨t2, ht2, _⟩
    refine ⟨t.take n, t2, ?_⟩
    rw [List.append_assoc, ← ht2]
    exact List.take_append_drop n t
  · rintro ⟨s, u, hsu⟩
    refine ⟨s.length, (likeMatches_lit p hp ['%'] _).mpr ⟨u, ?_, likeMatches_pct_nil u⟩⟩
    rw [← hsu, List.append_assoc]
    exact List.drop_left s (p ++ u)

theorem charToNat_ofNat {n : Nat} (h : n.isValidChar) : (Char.ofNat n).toNat = n := by
  rw [Char.ofNat, dif_pos h]
  rfl

/-- Lowercasing never introduces a `LIKE` metacharacter. -/
theorem lowerChar_plain (c : Char) (h : c ≠ '%' ∧ c ≠ '_' ∧ c ≠ '\\') :
    lowerChar c ≠ '%' ∧ lowerChar c ≠ '_' ∧ lowerChar c ≠ '\\' := by
  unfold lowerChar
  split
  case isTrue hin =>
    obtain ⟨ha, hb⟩ := hin
    have ha' : 65 ≤ c.toNat := ha
    have hb' : c.toNat ≤ 90 := hb
    have hval : (Char.ofNat (c.toNat + 32)).toNat = c.toNat + 32 :=
      charToNat_ofNat (Or.inl (by omega))
    refine ⟨fun hEq => ?_, fun hEq => ?_, fun hEq => ?_⟩
    · rw [hEq, show ('%' : Char).toNat = 37 from by decide] at hval
      omega
    · rw [hEq, show ('_' : Char).toNat = 95 from by decide] at hval
      omega
    · rw [hEq, show ('\\' : Char).toNat = 92 from by decide] at hval
      omega
  case isFalse => exact h

theorem lowerStr_plain {l : List Char} (h : plainChars l) : plainChars (lowerStr l) := by
  intro c hc
  rcases List.mem_map.mp hc with ⟨c0, hc0, rfl⟩
  exact lowerChar_plain c0 (h c0 hc0)

/-- For a wildcard-free query, the unescaped `ILIKE '%q%'` test is exactly
the case-insensitive substring test. -/
theorem iLikeQ_iff_substr (q s : String) (hq : plainChars q.toList) :
    (iLikeQ q s = true) ↔ lowerStr q.toList <:+: lowerStr s.toList := by
  unfold iLikeQ likePatternFor
  have hpat : lowerStr ('%' :: q.toList ++ ['%'])
      = '%' :: (lowerStr q.toList ++ ['%']) := by
    simp [lowerStr, lowerChar]
  rw [hpat]
  exact likeMatches_pct_lit_pct _ _ (lowerStr_plain hq)

/-- Totality of the byte-order comparison. -/
theorem charListLe_total : ∀ a b : List Char,
    charListLe a b = true ∨ charListLe b a = true := by
  intro a
  induction a with
  | nil => intro b; left; rfl
  | cons x xs ih =>
      intro b
      cases b with
      | nil => right; rfl
      | cons y ys =>
          by_cases h1 : x < y
          · left
            simp [charListLe, h1]
          · by_cases h2 : y < x
            · right
              simp [charListLe, h2]
            · rcases ih ys with h | h
              · left
                simp [charListLe, h1, h2, h]
              · right
                simp [charListLe, h1, h2, h]

/-- Transitivity of the byte-order comparison. -/
theorem charListLe_trans : ∀ a b c : List Char,
    charListLe a b = true → charListLe b c = true → charListLe a c = true := by
  intro a
  induction a with
  | nil => intro b c _ _; rfl
  | cons x xs ih =>
      intro b c hab hbc
      cases b with
      | nil => simp [charListLe] at hab
      | cons y ys =>
          cases c with
          | nil => simp [charListLe] at hbc
          | cons z zs =>
              simp only [charListLe] at hab hbc ⊢
              by_cases hxy : x < y
              · by_cases hyz : y < z
                · rw [if_pos (lt_trans hxy hyz)]
                · rw [if_neg hyz] at hbc
                  by_cases hzy : z < y
                  · rw [if_pos hzy] at hbc
                    exact absurd hbc (by simp)
                  · have hyzeq : y = z := le_antisymm (not_lt.mp hzy) (not_lt.mp hyz)
                    rw [if_pos (hyzeq ▸ hxy)]
              · rw [if_neg hxy] at hab
                by_cases hyx : y < x
                · rw [if_pos hyx] at hab
                  exact absurd hab (by simp)
                · rw [if_neg hyx] at hab
                  have hxyeq : x = y := le_antisymm (not_lt.mp hyx) (not_lt.mp hxy)
                  subst hxyeq
                  by_cases hxz : x < z
                  · rw [if_pos hxz]
                  · rw [if_neg hxz] at hbc ⊢
                    by_cases hzx : z < x
                    · rw [if_pos hzx] at hbc
                      exact absurd hbc (by simp)
                    · rw [if_neg hzx] at hbc ⊢
                      exact ih ys zs hab hbc

instance : IsTotal String strLe :=
  ⟨fun a b => charListLe_total a.toList b.toList⟩

instance : IsTrans String strLe :=
  ⟨fun a b c => charListLe_trans a.toList b.toList c.toList⟩

/-- C8 (amended): the autocomplete endpoint returns an empty array (status
200) for a missing query or one shorter than 2 UTF-16 code units; otherwise,
for a query free of the `LIKE` metacharacters `%`, `_` and `\` (which the
handler interpolates into the pattern unescaped), it returns at most 10
distinct stored `summary` values, in ascending byte order, exactly those
containing the query case-insensitively (all of them whenever at most 10
distinct summaries match). -/
theorem c8_autocomplete_like (q : Option String) (summaries : List String) :
    (q = none → getPetNames q summaries = []) ∧
    (∀ s, q = some s → jsStrLen s < 2 → getPetNames q summaries = []) ∧
    (∀ s, q = some s → 2 ≤ jsStrLen s → plainChars s.toList →
      (getPetNames q summaries).length ≤ 10 ∧
      List.Sorted strLe (getPetNames q summaries) ∧
      (getPetNames q summaries).Nodup ∧
      (∀ x ∈ getPetNames q summaries, x ∈ summaries ∧
        lowerStr s.toList <:+: lowerStr x.toList) ∧
      (((summaries.filter (fun x => iLikeQ s x)).dedup).length ≤ 10 →
        ∀ x ∈ summaries, lowerStr s.toList <:+: lowerStr x.toList →
          x ∈ getPetNames q summaries)) := by
  refine ⟨?_, ?_, ?_⟩
  · rintro rfl
    rfl
  · rintro s rfl h
    show (if jsStrLen s < 2 then [] else sqlPetNames s summaries) = []
    rw [if_pos h]
  · rintro s rfl hlen hq
    have hget : getPetNames (some s) summaries = sqlPetNames s summaries := by
      show (if jsStrLen s < 2 then [] else sqlPetNames s summaries) = sqlPetNames s summaries
      rw [if_neg (by omega)]
    rw [hget]
    unfold sqlPetNames
    set F := summaries.filter (fun x => iLikeQ s x) with hF
    have hsortnd : (List.insertionSort strLe F.dedup).Nodup :=
      ((List.perm_insertionSort strLe F.dedup).symm).nodup (List.nodup_dedup F)
    refine ⟨List.length_take_le _ _, ?_, ?_, ?_, ?_⟩
    · exact List.Pairwise.sublist (List.take_sublist _ _)
        (List.sorted_insertionSort strLe _)
    · exact List.Nodup.sublist (List.take_sublist _ _) hsortnd
    · intro x hx
      have hx1 : x ∈ List.insertionSort strLe F.dedup :=
        (List.take_sublist _ _).subset hx
      have hx2 : x ∈ F.dedup :=
        (List.perm_insertionSort strLe F.dedup).mem_iff.mp hx1
      have hx3 : x ∈ F := List.mem_dedup.mp hx2
      obtain ⟨hxs, hmatch⟩ := List.mem_filter.mp hx3
      exact ⟨hxs, (iLikeQ_iff_substr s x hq).mp hmatch⟩
    · intro hcount x hxs hinf
      have hmatch : iLikeQ s x = true := (iLikeQ_iff_substr s x hq).mpr hinf
      have hx3 : x ∈ F := List.mem_filter.mpr ⟨hxs, hmatch⟩
      have hx2 : x ∈ F.dedup := List.mem_dedup.mpr hx3
      have hx1 : x ∈ List.insertionSort strLe F.dedup :=
        (List.perm_insertionSort strLe F.dedup).mem_iff.mpr hx2
      have hlen10 : (List.insertionSort strLe F.dedup).length ≤ 10 := by
        rw [(List.perm_insertionSort strLe F.dedup).length_eq]
        exact hcount
      rw [List.take_of_length_le hlen10]
      exact hx1

/-- Counterexample for C8 as stated: the handler builds `ILIKE '%q%'`
without escaping `q`, so for the query `"a%b"` the stored summary `"axb"`
is returned even though `"a%b"` is not a substring of it — `q` acts as a
`LIKE` pattern, not as a literal substring. -/
theorem c8_wildcard_counterexample :
    getPetNames (some "a%b") ["axb"] = ["axb"] ∧
    ¬ (lowerStr "a%b".toList <:+: lowerStr "axb".toList) := by
  constructor
  · simp [getPetNames, sqlPetNames, iLikeQ, likeMatches, likePatternFor, lowerStr,
      lowerChar, jsStrLen, List.insertionSort, List.orderedInsert, strLe, charListLe,
      List.dedup]
  · decide

/-- Witness for C8: the spec's own scenario, query `"fl"` against
`{"Fluffy", "Flash", "Spike"}`. -/
theorem c8_autocomplete_like_witness :
    (getPetNames (some "fl") ["Fluffy", "Flash", "Spike"]).length ≤ 10 ∧
    (getPetNames (some "fl") ["Fluffy", "Flash", "Spike"]).Nodup ∧
    "Flash" ∈ getPetNames (some "fl") ["Fluffy", "Flash", "Spike"] := by
  have h := (c8_autocomplete_like (some "fl") ["Fluffy", "Flash", "Spike"]).2.2 "fl" rfl
    (by decide) (by decide)
  refine ⟨h.1, h.2.2.1, ?_⟩
  apply h.2.2.2.2
  · calc ((["Fluffy", "Flash", "Spike"].filter (fun x => iLikeQ "fl" x)).dedup).length
        ≤ (["Fluffy", "Flash", "Spike"].filter (fun x => iLikeQ "fl" x)).length :=
          (List.dedup_sublist _).length_le
      _ ≤ (["Fluffy", "Flash", "Spike"] : List String).length := List.length_filter_le _ _
      _ ≤ 10 := by decide
  · decide
  · decide
